import Mathlib

/-!
# Verification of the Category Analysis dashboard

A shallow embedding of `src/pages/14_Category_Analysis.py`: a Streamlit script
that loads a wide CSV of classified Wikipedia articles, reshapes it to long
format, aggregates per-language/per-category count and percentage matrices and
renders filtered/sorted views of them.

The embedding models the pandas data values involved: a CSV cell is either a
missing value (`NaN`) or a string; a DataFrame of cells is a `Table`; the
derived long table is a `List LongRow`; the language-by-category matrices are
label-addressed `PivotTable`s. Python exceptions raised by pandas label lookups
are modelled by `Except Err`. String primitives used by the script
(`str.replace`, `str.startswith`, `str.split`, `str.lower`) are re-implemented
structurally so that every definition evaluates inside the kernel.
-/

namespace CategoryAnalysis

/-- A cell of the source CSV table: either missing (pandas `NaN`) or a string. -/
inductive Cell where
  | na : Cell
  | val : String → Cell
deriving DecidableEq

/-- The test `pd.notna(row[col]) and row[col] != ''` of line 30 of the script:
the cell is present and non-empty. -/
def Cell.keep : Cell → Bool
  | .na => false
  | .val s => s != ""

/-- The source CSV: named columns, and rows of cells laid out in column order. -/
structure Table where
  columns : List String
  rows : List (List Cell)
deriving DecidableEq

/-- Failures of the pipeline. `keyError` models a Python `KeyError` raised by a
pandas label lookup. `dataFormatError` is the distinguished error named by the
spec; no code in the script ever raises it — it exists only so the spec's claim
about it can be stated. -/
inductive Err where
  | keyError : String → Err
  | dataFormatError : Err
deriving DecidableEq

/-- Equality of `Except` results is decidable when both component types have
decidable equality. -/
instance exceptDecEq {ε α : Type} [DecidableEq ε] [DecidableEq α] :
    DecidableEq (Except ε α)
  | .error e, .error f =>
    if h : e = f then .isTrue (by rw [h]) else .isFalse (by simp [h])
  | .error _, .ok _ => .isFalse (by simp)
  | .ok _, .error _ => .isFalse (by simp)
  | .ok a, .ok b =>
    if h : a = b then .isTrue (by rw [h]) else .isFalse (by simp [h])

/-! ## String primitives (kernel-computable models of the Python ones) -/

/-- Code-point comparison of strings as char lists, `≤` lexicographically. -/
def charListLe : List Char → List Char → Bool
  | [], _ => true
  | _ :: _, [] => false
  | a :: as, b :: bs =>
    if a.toNat < b.toNat then true
    else if b.toNat < a.toNat then false
    else charListLe as bs

/-- `≤` on strings (the order pandas uses for string group keys). -/
def strLe (a b : String) : Bool := charListLe a.toList b.toList

/-- Fuel-indexed worker for `pyReplace`; the fuel starts at the string length
and bounds the number of scanning steps. -/
def replaceAllAux (pat rep : List Char) : Nat → List Char → List Char
  | 0, l => l
  | _ + 1, [] => []
  | fuel + 1, c :: rest =>
    if pat.isPrefixOf (c :: rest) then
      rep ++ replaceAllAux pat rep fuel ((c :: rest).drop pat.length)
    else
      c :: replaceAllAux pat rep fuel rest

/-- Python `s.replace(pat, rep)` for a non-empty pattern: replaces every
non-overlapping occurrence, scanning left to right (line 29 of the script uses
it with pattern `"article_"`). -/
def pyReplace (s pat rep : String) : String :=
  ⟨replaceAllAux pat.toList rep.toList s.toList.length s.toList⟩

/-- Python `s.startswith(p)`. -/
def pyStartsWith (s p : String) : Bool := p.toList.isPrefixOf s.toList

/-- Fuel-indexed worker for `pySplit`; accumulates the current fragment in
reverse. -/
def splitOnAux (sep : List Char) : Nat → List Char → List Char → List (List Char)
  | 0, acc, l => [acc.reverse ++ l]
  | _ + 1, acc, [] => [acc.reverse]
  | fuel + 1, acc, c :: rest =>
    if sep.isPrefixOf (c :: rest) then
      acc.reverse :: splitOnAux sep fuel [] ((c :: rest).drop sep.length)
    else
      splitOnAux sep fuel (c :: acc) rest

/-- Python `s.split(sep)` for a non-empty separator (line 185 of the script
uses it with separator `"% "`). -/
def pySplit (s sep : String) : List String :=
  (splitOnAux sep.toList (s.toList.length + 1) [] s.toList).map List.asString

/-- ASCII lower-casing of one character (the script only lower-cases ASCII
option labels). -/
def charLower (c : Char) : Char :=
  if 65 ≤ c.toNat ∧ c.toNat ≤ 90 then Char.ofNat (c.toNat + 32) else c

/-- Python `s.lower()` on ASCII strings. -/
def pyLower (s : String) : String := ⟨s.toList.map charLower⟩

/-! ## Loader (`load_data`, lines 14-40) -/

/-- One long-format record (lines 31-36 of the script). -/
structure LongRow where
  qid : Cell
  language_code : String
  article_url : String
  category : Cell
deriving DecidableEq

/-- Label lookup of a cell in one row, walking the column list in order;
`none` when the label is absent. -/
def lookupCell : List String → List Cell → String → Option Cell
  | [], _, _ => none
  | c :: cs, vals, key =>
    if c = key then some (vals.headD .na) else lookupCell cs vals.tail key

/-- pandas `row[key]` (lines 25-26): raises `KeyError key` when the column is
absent. -/
def getCellE (cols : List String) (vals : List Cell) (key : String) : Except Err Cell :=
  match lookupCell cols vals key with
  | some c => .ok c
  | none => .error (.keyError key)

/-- Total cell access for columns known to come from the column list
(line 30 reads `row[col]` for `col` drawn from `df.columns`). -/
def cellAt (cols : List String) (vals : List Cell) (key : String) : Cell :=
  (lookupCell cols vals key).getD .na

/-- Line 20: the columns whose name starts with `"article_"`. -/
def articleColumns (cols : List String) : List String :=
  cols.filter fun c => pyStartsWith c "article_"

/-- Lines 28-36: the long records contributed by one item row — one per
article column whose cell is present and non-empty; the language code is the
column name with every occurrence of `"article_"` removed (Python
`str.replace`). -/
def articleRecords (cols artCols : List String) (vals : List Cell)
    (qid cat : Cell) : List LongRow :=
  artCols.filterMap fun col =>
    match cellAt cols vals col with
    | .na => none
    | .val s =>
      if s = "" then none
      else some ⟨qid, pyReplace col "article_" "", s, cat⟩

/-- The body of the `iterrows` loop (lines 24-36): reads the `qid` and
`category` cells — raising `KeyError` when a column is missing — then emits the
per-language records. -/
def loadItemRow (cols artCols : List String) (vals : List Cell) :
    Except Err (List LongRow) := do
  let qid ← getCellE cols vals "qid"
  let category ← getCellE cols vals "category"
  .ok (articleRecords cols artCols vals qid category)

/-- The `iterrows` loop itself, appending each row's records in order. -/
def loadRows (cols artCols : List String) : List (List Cell) → Except Err (List LongRow)
  | [] => .ok []
  | r :: rs => do
    let first ← loadItemRow cols artCols r
    let rest ← loadRows cols artCols rs
    .ok (first ++ rest)

/-- `load_data` (lines 14-40): the wide-to-long reshape of the source table. -/
def load_data (t : Table) : Except Err (List LongRow) :=
  loadRows t.columns (articleColumns t.columns) t.rows

/-! ## Aggregator (lines 102-115) -/

/-- Distinct group keys in pandas `groupby` order: unique values sorted
ascending. -/
def sortedKeys (l : List String) : List String :=
  List.insertionSort (fun a b => strLe a b = true) l.dedup

/-- The number of long rows carrying language code `l`. -/
def countOfLang (rows : List LongRow) (l : String) : Nat :=
  rows.countP fun r => r.language_code == l

/-- `df_long.groupby('language_code').size()` (line 102): per-language row
counts, keyed in ascending key order. -/
def lang_counts (rows : List LongRow) : List (String × Nat) :=
  (sortedKeys (rows.map (·.language_code))).map fun k => (k, countOfLang rows k)

/-- `Series.sort_values(ascending=True)` on a small series of integer values:
a stable sort by value. -/
def sortValuesAsc (l : List (String × Nat)) : List (String × Nat) :=
  List.insertionSort (fun a b => a.2 ≤ b.2) l

/-- `Series.sort_values(ascending=False)` on a small series of integer values:
numpy argsorts ascending (stably, at this size) and reverses the order. -/
def sortValuesDesc (l : List (String × Nat)) : List (String × Nat) :=
  (sortValuesAsc l).reverse

/-- `Series.sort_values(ascending=False)` for rational (percentage) values. -/
def sortValuesDescQ (l : List (String × ℚ)) : List (String × ℚ) :=
  (List.insertionSort (fun a b => a.2 ≤ b.2) l).reverse

/-- Line 103 with the descending sort abstracted: `f` stands in the
`sort_values(ascending=False)` position of
`lang_counts.sort_values(ascending=False).head(25).index.tolist()`. -/
def top25With (f : List (String × Nat) → List (String × Nat))
    (rows : List LongRow) : List String :=
  ((f (lang_counts rows)).take 25).map (·.1)

/-- `top_25_languages` (lines 102-103). -/
def top_25_languages (rows : List LongRow) : List String :=
  top25With sortValuesDesc rows

/-- `df_top25` (line 104): the long rows restricted to the top-25 languages. -/
def df_top25 (rows : List LongRow) : List LongRow :=
  rows.filter fun r => (top_25_languages rows).contains r.language_code

/-- A pandas DataFrame with language rows and category columns, addressed by
label: `index` and `cols` are the axis labels in order, `entry` the
label-addressed values. -/
structure PivotTable where
  index : List String
  cols : List String
  entry : String → String → ℚ

/-- `df.sum(axis=1)` at one row label: the sum of the row over the frame's
columns. -/
def rowSumOf (m : PivotTable) (l : String) : ℚ :=
  (m.cols.map fun c => m.entry l c).sum

/-- Lines 107-113: group `df_top25` by (language, category) — pandas drops
rows whose category is missing — pivot to a count matrix, `fillna(0)`, and
reindex the rows to `top_25_languages` with `.loc`, which raises a `KeyError`
when some top-25 language has no surviving group. -/
def pivot_counts_all (rows : List LongRow) : Except Err PivotTable :=
  let d := df_top25 rows
  let dv := d.filter fun r => r.category != Cell.na
  let idx0 := sortedKeys (dv.map (·.language_code))
  let cats := sortedKeys (dv.filterMap fun r =>
    match r.category with | .na => none | .val s => some s)
  let t25 := top_25_languages rows
  if t25.all fun l => idx0.contains l then
    .ok ⟨t25, cats, fun l c =>
      (d.countP fun r => r.language_code == l && r.category == Cell.val c : ℚ)⟩
  else
    .error (.keyError "top 25 language not in pivot index")

/-- Line 115: the row-normalized percentage matrix
`pivot_counts_all.div(pivot_counts_all.sum(axis=1), axis=0) * 100`. -/
def pivot_pct_of (m : PivotTable) : PivotTable :=
  ⟨m.index, m.cols, fun l c => m.entry l c / rowSumOf m l * 100⟩

/-! ## Selector/sorter (lines 117-197) -/

/-- Line 124: the fixed widget ordering of the category enumeration. -/
def category_order : List String :=
  ["event", "concept", "organization", "human", "none", "other"]

/-- Line 125: the categories offered by the multiselect — the fixed enumeration
filtered to the columns of the percentage matrix. -/
def available_categories (m : PivotTable) : List String :=
  category_order.filter fun c => m.cols.contains c

/-- Line 185: the category name parsed out of a `"Highest % X"` sort option:
`sort_option.split("% ")[1].lower()`. -/
def sortCategoryOf (sort_option : String) : String :=
  pyLower ((pySplit sort_option "% ").getD 1 "")

/-- `df[sel]` column selection by label (lines 176-177). -/
def selectCols (m : PivotTable) (sel : List String) : PivotTable :=
  ⟨m.index, sel, m.entry⟩

/-- `df.loc[order]` row selection by label (lines 196-197). -/
def selectRows (m : PivotTable) (ord : List String) : PivotTable :=
  ⟨ord, m.cols, m.entry⟩

/-- Lines 180-191: the language ordering induced by the sort widget. The
`"Highest % C"` branch ranks by the column of the unfiltered percentage matrix
`pctAll` when present and otherwise falls back to `top_25_languages`. -/
def lang_order (rows : List LongRow) (pctAll : PivotTable)
    (sort_option : String) : List String :=
  if sort_option = "Article Count (Descending)" then
    (sortValuesDesc ((top_25_languages rows).map fun l =>
      (l, countOfLang rows l))).map (·.1)
  else if sort_option = "Article Count (Ascending)" then
    (sortValuesAsc ((top_25_languages rows).map fun l =>
      (l, countOfLang rows l))).map (·.1)
  else if pyStartsWith sort_option "Highest %" then
    let category := sortCategoryOf sort_option
    if pctAll.cols.contains category then
      (sortValuesDescQ (pctAll.index.map fun l =>
        (l, pctAll.entry l category))).map (·.1)
    else
      top_25_languages rows
  else
    top_25_languages rows

/-! ## Render cycle -/

/-- The filtered, ordered matrices a successful render cycle displays. -/
structure DisplayOut where
  lang_order : List String
  counts : PivotTable
  pct : PivotTable

/-- The outcome of a render cycle that did not crash: either an early halt
showing only a warning (`st.warning` followed by `st.stop`), or the displayed
matrices. -/
inductive RenderResult where
  | warning : String → RenderResult
  | output : DisplayOut → RenderResult

/-- The message of line 173. -/
def categoryWarning : String := "Please select at least one article type to display."

/-- One render cycle of the script from the cached long table to the displayed
matrices: the `KeyError` the script raises at line 102 when the long table is
empty (an empty DataFrame has no `language_code` column), the aggregation of
lines 102-115, the category guard of lines 172-174, and the filtering, sorting
and capping of lines 176-197. -/
def renderCycle (rows : List LongRow) (category_options : List String)
    (sort_option : String) (num_languages : Nat) : Except Err RenderResult :=
  if rows.isEmpty then .error (.keyError "language_code")
  else do
    let pAll ← pivot_counts_all rows
    let pctAll := pivot_pct_of pAll
    if category_options.isEmpty then
      .ok (.warning categoryWarning)
    else
      let lo := (lang_order rows pctAll sort_option).take num_languages
      .ok (.output ⟨lo, selectRows (selectCols pAll category_options) lo,
        selectRows (selectCols pctAll category_options) lo⟩)

/-- A full run: load, then one render cycle. -/
def render (t : Table) (category_options : List String) (sort_option : String)
    (num_languages : Nat) : Except Err RenderResult := do
  let rows ← load_data t
  renderCycle rows category_options sort_option num_languages

/-! ## Observation functions over the pipeline

Each projects one observable of the script's run on a table; a `none`/default
result means the run crashed before producing that observable. -/

/-- The long table and count matrix when the script reaches line 115 without
crashing. -/
def pivotCtxOf (t : Table) : Option (List LongRow × PivotTable) :=
  match load_data t with
  | .error _ => none
  | .ok rows =>
    if rows.isEmpty then none
    else
      match pivot_counts_all rows with
      | .error _ => none
      | .ok m => some (rows, m)

/-- The row labels of the percentage matrix (also those of the count matrix). -/
def pctLangs (t : Table) : List String :=
  match pivotCtxOf t with
  | some (_, m) => m.index
  | none => []

/-- The column labels of the percentage matrix. -/
def pctColsOf (t : Table) : List String :=
  match pivotCtxOf t with
  | some (_, m) => m.cols
  | none => []

/-- The sum of language `l`'s row of the percentage matrix. -/
def pctRowSumOf (t : Table) (l : String) : Option ℚ :=
  (pivotCtxOf t).map fun p => rowSumOf (pivot_pct_of p.2) l

/-- The sum of language `l`'s row of the count matrix. -/
def countRowSumOf (t : Table) (l : String) : Option ℚ :=
  (pivotCtxOf t).map fun p => rowSumOf p.2 l

/-- The language ordering lines 180-191 choose for a sort option. -/
def langOrderOf (t : Table) (sort_option : String) : Option (List String) :=
  (pivotCtxOf t).map fun p => lang_order p.1 (pivot_pct_of p.2) sort_option

/-- `top_25_languages` as computed by the run. -/
def top25Of (t : Table) : Option (List String) :=
  (pivotCtxOf t).map fun p => top_25_languages p.1

/-- The categories the multiselect offers. -/
def availableCategoriesOf (t : Table) : List String :=
  match pivotCtxOf t with
  | some (_, m) => available_categories (pivot_pct_of m)
  | none => []

/-- The displayed matrices of a run, when it produced them. -/
def renderOutOf (t : Table) (sel : List String) (sort_option : String)
    (n : Nat) : Option DisplayOut :=
  match render t sel sort_option n with
  | .ok (.output o) => some o
  | _ => none

/-- The displayed language order of a run. -/
def renderOrderOf (t : Table) (sel : List String) (sort_option : String)
    (n : Nat) : Option (List String) :=
  (renderOutOf t sel sort_option n).map (·.lang_order)

/-- The displayed category columns of a run. -/
def displayCatsOf (t : Table) (sel : List String) (sort_option : String)
    (n : Nat) : Option (List String) :=
  (renderOutOf t sel sort_option n).map fun o => o.counts.cols

/-- One cell of the displayed count matrix. -/
def displayCountEntryOf (t : Table) (sel : List String) (sort_option : String)
    (n : Nat) (l c : String) : Option ℚ :=
  (renderOutOf t sel sort_option n).map fun o => o.counts.entry l c

/-- One cell of the displayed percentage matrix. -/
def displayPctEntryOf (t : Table) (sel : List String) (sort_option : String)
    (n : Nat) (l c : String) : Option ℚ :=
  (renderOutOf t sel sort_option n).map fun o => o.pct.entry l c

/-- The row labels of the unfiltered count matrix. -/
def allLangsOf (t : Table) : Option (List String) :=
  (pivotCtxOf t).map fun p => p.2.index

/-- The column labels of the unfiltered count matrix. -/
def allCatsOf (t : Table) : Option (List String) :=
  (pivotCtxOf t).map fun p => p.2.cols

/-- One cell of the unfiltered count matrix. -/
def allCountEntryOf (t : Table) (l c : String) : Option ℚ :=
  (pivotCtxOf t).map fun p => p.2.entry l c

/-- One cell of the unfiltered percentage matrix. -/
def allPctEntryOf (t : Table) (l c : String) : Option ℚ :=
  (pivotCtxOf t).map fun p => (pivot_pct_of p.2).entry l c

/-! ## Raw data sample (lines 411-423) -/

/-- Line 417: `df_top25` restricted to the rows whose category is among the
selected categories (`isin(category_options)`; a missing category matches no
selection). -/
def displayFilter (rows : List LongRow) (sel : List String) : List LongRow :=
  (df_top25 rows).filter fun r =>
    match r.category with
    | .val s => sel.contains s
    | .na => false

/-- The missing-last ordering pandas `sort_values` uses on a column that may
hold `NaN`. -/
def cellLe : Cell → Cell → Bool
  | .na, .na => true
  | .na, .val _ => false
  | .val _, .na => true
  | .val s, .val u => strLe s u

/-- The two-key ordering of line 421: by language code, then by category. -/
def rowSortLe (r1 r2 : LongRow) : Bool :=
  if r1.language_code = r2.language_code then cellLe r1.category r2.category
  else strLe r1.language_code r2.language_code

/-- `rowSortLe` as a relation, for sorting. -/
def RowRel (r1 r2 : LongRow) : Prop := rowSortLe r1 r2 = true

instance : DecidableRel RowRel := fun r1 r2 => instDecidableEqBool (rowSortLe r1 r2) true

/-- Lines 419-421: `sample(min(100, len(display_df)))` draws that many distinct
rows uniformly — modelled as the prefix of an arbitrary permutation `σ` of the
filtered rows — and the result is sorted by language code then category. -/
def sample_df (rows : List LongRow) (sel : List String)
    (σ : List LongRow → List LongRow) : List LongRow :=
  let display := displayFilter rows sel
  List.insertionSort RowRel ((σ display).take (min 100 display.length))

/-! ## Session model

`st.cache_data` memoizes the load result for the process lifetime; every user
interaction re-runs the script synchronously against that cached value and
never mutates it. -/

/-- The process state: the memoized result of `load_data`. -/
structure SessionState where
  cached : Except Err (List LongRow)

/-- Starting a session loads (and caches) the source table. -/
def initSession (t : Table) : SessionState := ⟨load_data t⟩

/-- One user interaction against the first revision of the script: a full
synchronous re-run from the cached long table; the cache is read-only. -/
def runCycle (s : SessionState) (sel : List String) (sort_option : String)
    (n : Nat) : SessionState × Except Err RenderResult :=
  (s, do
    let rows ← s.cached
    renderCycle rows sel sort_option n)

/-- Modelled from the spec: the language-guard warning message of the second
revision (the spec gives the guard, not its text). -/
def languageWarning : String := "Please select at least one language to display."

/-- Modelled from the spec: the second revision of the script — present in the
repository but not under src/ — replaces the language-count slider with a
language multi-select; per the spec, an empty language selection, like an empty
category selection, halts rendering with a warning, and the selected languages
then restrict the displayed language order. The guard sits where the category
guard sits in the first revision: after the aggregation, before the filtered
matrices. -/
def renderCycle2 (rows : List LongRow) (category_options language_options : List String)
    (sort_option : String) : Except Err RenderResult :=
  if rows.isEmpty then .error (.keyError "language_code")
  else do
    let pAll ← pivot_counts_all rows
    let pctAll := pivot_pct_of pAll
    if category_options.isEmpty then
      .ok (.warning categoryWarning)
    else if language_options.isEmpty then
      .ok (.warning languageWarning)
    else
      let lo := (lang_order rows pctAll sort_option).filter fun l =>
        language_options.contains l
      .ok (.output ⟨lo, selectRows (selectCols pAll category_options) lo,
        selectRows (selectCols pctAll category_options) lo⟩)

/-- One user interaction against the second revision. -/
def runCycle2 (s : SessionState) (catSel langSel : List String)
    (sort_option : String) : SessionState × Except Err RenderResult :=
  (s, do
    let rows ← s.cached
    renderCycle2 rows catSel langSel sort_option)

/-! ## Spec-side comparison definitions -/

/-- The count the spec's loader property refers to: the number of present,
non-empty cells in language `L`'s article column, the column named
`"article_" ++ L`. -/
def specCellCount (t : Table) (L : String) : Nat :=
  t.rows.countP fun vals => (cellAt t.columns vals ("article_" ++ L)).keep

/-- The count of long rows the code actually attributes to language code `L`:
summed over the item rows, the number of article columns whose name maps to `L`
under the loader's `str.replace` and whose cell is present and non-empty. -/
def codeCellCount (t : Table) (L : String) : Nat :=
  (t.rows.map fun vals =>
    (articleColumns t.columns).countP fun col =>
      pyReplace col "article_" "" == L && (cellAt t.columns vals col).keep).sum

/-- First occurrences: the distinct elements of a list in the order they first
appear. -/
def firstOccAux : List String → List String → List String
  | [], _ => []
  | a :: l, seen =>
    if a ∈ seen then firstOccAux l seen else a :: firstOccAux l (a :: seen)

/-- The distinct elements of a list, each at its first appearance. -/
def firstOccurrences (l : List String) : List String := firstOccAux l []

/-- The ranking the spec's top-25 property claims: languages by row count
descending with ties in the order the languages first appear in the long
table — a stable descending sort of the counts keyed in first-appearance
order. -/
def claimedTop25 (rows : List LongRow) : List String :=
  ((List.insertionSort (fun a b : String × Nat => b.2 ≤ a.2)
      ((firstOccurrences (rows.map (·.language_code))).map fun k =>
        (k, countOfLang rows k))).take 25).map (·.1)


/-! ## Concrete tables used by the witnesses and counterexamples -/

/-- A well-formed two-item, two-language table. -/
def sampleTable : Table :=
  ⟨["qid", "category", "article_en", "article_fr"],
   [[.val "Q1", .val "human", .val "u1", .val "u2"],
    [.val "Q2", .val "event", .val "u3", .na]]⟩

/-- The long table `sampleTable` loads to. -/
def sampleRows : List LongRow :=
  [⟨.val "Q1", "en", "u1", .val "human"⟩, ⟨.val "Q1", "fr", "u2", .val "human"⟩,
   ⟨.val "Q2", "en", "u3", .val "event"⟩]

/-- A table with an article column whose name contains the marker twice. -/
def oddColumnTable : Table :=
  ⟨["qid", "category", "article_article_en"], [[.val "Q1", .val "human", .val "u"]]⟩

/-- A table without a `qid` column and without rows. -/
def noQidEmptyTable : Table := ⟨["category", "article_en"], []⟩

/-- A non-empty table without a `qid` column. -/
def noQidTable : Table := ⟨["category", "article_en"], [[.val "human", .val "u"]]⟩

/-- A non-empty table with a `qid` column but no `category` column. -/
def noCategoryTable : Table := ⟨["qid", "article_en"], [[.val "Q1", .val "u"]]⟩

/-- A schema-conforming, non-empty table whose only article cell is missing,
so its long table is empty. -/
def allMissingTable : Table :=
  ⟨["qid", "category", "article_en"], [[.val "Q1", .val "human", .na]]⟩

/-- Two languages, tied row counts, `aa`'s column first. -/
def tieTableA : Table :=
  ⟨["qid", "category", "article_aa", "article_zz"],
   [[.val "Q1", .val "human", .val "u1", .val "u2"]]⟩

/-- Two languages, tied row counts, `zz`'s column first. -/
def tieTableB : Table :=
  ⟨["qid", "category", "article_zz", "article_aa"],
   [[.val "Q1", .val "human", .val "u2", .val "u1"]]⟩

/-- Six languages with one row each: capping the display at five languages
must exclude one of them. -/
def sixLangTable : Table :=
  ⟨["qid", "category", "article_aa", "article_bb", "article_cc", "article_dd",
    "article_ee", "article_ff"],
   [[.val "Q1", .val "human", .val "u1", .val "u2", .val "u3", .val "u4",
     .val "u5", .val "u6"]]⟩

/-- The per-language row count of the run's long table (`lang_counts[l]`). -/
def countOfLangOf (t : Table) (l : String) : Nat :=
  countOfLang ((load_data t).toOption.getD []) l

/-- The long table `tieTableA` loads to. -/
def rowsTieA : List LongRow :=
  [⟨.val "Q1", "aa", "u1", .val "human"⟩, ⟨.val "Q1", "zz", "u2", .val "human"⟩]

/-- The long table `tieTableB` loads to. -/
def rowsTieB : List LongRow :=
  [⟨.val "Q1", "zz", "u2", .val "human"⟩, ⟨.val "Q1", "aa", "u1", .val "human"⟩]

/-- The long table `sixLangTable` loads to. -/
def rowsSix : List LongRow :=
  [⟨.val "Q1", "aa", "u1", .val "human"⟩, ⟨.val "Q1", "bb", "u2", .val "human"⟩,
   ⟨.val "Q1", "cc", "u3", .val "human"⟩, ⟨.val "Q1", "dd", "u4", .val "human"⟩,
   ⟨.val "Q1", "ee", "u5", .val "human"⟩, ⟨.val "Q1", "ff", "u6", .val "human"⟩]

/-! ## Loader lemmas -/

theorem lookupCell_eq_none {cols : List String} (vals : List Cell) {key : String}
    (h : key ∉ cols) : lookupCell cols vals key = none := by
  induction cols generalizing vals with
  | nil => rfl
  | cons c cs ih =>
    simp only [List.mem_cons, not_or] at h
    have hc : ¬ c = key := fun hc => h.1 hc.symm
    simp only [lookupCell, if_neg hc]
    exact ih _ h.2

theorem lookupCell_isSome {cols : List String} (vals : List Cell) {key : String}
    (h : key ∈ cols) : ∃ c, lookupCell cols vals key = some c := by
  induction cols generalizing vals with
  | nil => cases h
  | cons c cs ih =>
    by_cases hc : c = key
    · exact ⟨vals.headD .na, by simp [lookupCell, hc]⟩
    · rcases List.mem_cons.mp h with h1 | h2
      · exact absurd h1.symm hc
      · simpa [lookupCell, hc] using ih vals.tail h2

theorem loadItemRow_missing_qid {cols : List String} (artCols : List String)
    (vals : List Cell) (h : "qid" ∉ cols) :
    loadItemRow cols artCols vals = .error (.keyError "qid") := by
  simp [loadItemRow, getCellE, lookupCell_eq_none vals h, Bind.bind, Except.bind]

theorem loadItemRow_missing_category {cols : List String} (artCols : List String)
    (vals : List Cell) (h1 : "qid" ∈ cols) (h2 : "category" ∉ cols) :
    loadItemRow cols artCols vals = .error (.keyError "category") := by
  obtain ⟨q, hq⟩ := lookupCell_isSome vals h1
  simp [loadItemRow, getCellE, hq, lookupCell_eq_none vals h2, Bind.bind, Except.bind]

theorem loadRows_error_head {cols artCols : List String} {r : List Cell}
    {rs : List (List Cell)} {e : Err} (h : loadItemRow cols artCols r = .error e) :
    loadRows cols artCols (r :: rs) = .error e := by
  simp [loadRows, h, Bind.bind, Except.bind]

/-- **C5** (amended): when the `qid` column — or, with `qid` present, the
`category` column — is absent and the table has at least one row, the loader
fails with a pandas `KeyError` naming the missing column, not with a
distinguished `DataFormatError`; and with zero rows it does not fail at all,
returning an empty long table. -/
theorem C5_theorem (t : Table) :
    ("qid" ∉ t.columns → t.rows ≠ [] → load_data t = .error (.keyError "qid")) ∧
    ("qid" ∈ t.columns → "category" ∉ t.columns → t.rows ≠ [] →
      load_data t = .error (.keyError "category")) ∧
    (t.rows = [] → load_data t = .ok []) := by
  refine ⟨fun h hr => ?_, fun h1 h2 hr => ?_, fun h => ?_⟩
  · match ht : t.rows with
    | [] => exact absurd ht hr
    | r :: rs =>
      unfold load_data
      rw [ht]
      exact loadRows_error_head (loadItemRow_missing_qid _ r h)
  · match ht : t.rows with
    | [] => exact absurd ht hr
    | r :: rs =>
      unfold load_data
      rw [ht]
      exact loadRows_error_head (loadItemRow_missing_category _ r h1 h2)
  · unfold load_data
    rw [h]
    rfl

/-- **C5** counterexample: `noQidEmptyTable` has no `qid` column, yet the
loader succeeds on it (with an empty long table) instead of failing with a
`DataFormatError`: with zero rows, the `iterrows` loop never looks the missing
column up. -/
theorem C5_counterexample :
    "qid" ∉ noQidEmptyTable.columns ∧ load_data noQidEmptyTable = .ok [] ∧
    load_data noQidEmptyTable ≠ .error .dataFormatError := by decide

/-- Witness for `C5_theorem`: both missing-column failures observed on concrete
one-row tables. -/
theorem C5_witness :
    load_data noQidTable = .error (.keyError "qid") ∧
    load_data noCategoryTable = .error (.keyError "category") :=
  ⟨(C5_theorem noQidTable).1 (by decide) (by decide),
   (C5_theorem noCategoryTable).2.1 (by decide) (by decide) (by decide)⟩

theorem articleRecords_countP (cols : List String) (vals : List Cell)
    (qid cat : Cell) (L : String) (artCols : List String) :
    (articleRecords cols artCols vals qid cat).countP
        (fun r => r.language_code == L)
      = artCols.countP fun col =>
          pyReplace col "article_" "" == L && (cellAt cols vals col).keep := by
  induction artCols with
  | nil => rfl
  | cons col arts ih =>
    simp only [articleRecords] at ih ⊢
    rw [List.filterMap_cons, List.countP_cons]
    cases hcell : cellAt cols vals col with
    | na => simp [hcell, Cell.keep, ih]
    | val s =>
      by_cases hs : s = ""
      · simp [hcell, hs, Cell.keep, ih]
      · simp [hcell, hs, Cell.keep, ih, List.countP_cons]

theorem articleRecords_url (cols : List String) (vals : List Cell)
    (qid cat : Cell) (artCols : List String) :
    ∀ r ∈ articleRecords cols artCols vals qid cat, r.article_url ≠ "" := by
  induction artCols with
  | nil => intro r hr; cases hr
  | cons col arts ih =>
    intro r hr
    simp only [articleRecords] at ih hr
    rw [List.filterMap_cons] at hr
    cases hcell : cellAt cols vals col with
    | na =>
      simp only [hcell] at hr
      exact ih r hr
    | val s =>
      by_cases hs : s = ""
      · simp only [hcell, if_pos hs] at hr
        exact ih r hr
      · simp only [hcell, if_neg hs] at hr
        rcases List.mem_cons.mp hr with h | h
        · rw [h]
          exact hs
        · exact ih r h

theorem loadRows_ok_cons {cols artCols : List String} {r : List Cell}
    {rs : List (List Cell)} {out : List LongRow}
    (h : loadRows cols artCols (r :: rs) = .ok out) :
    ∃ first rest, loadItemRow cols artCols r = .ok first ∧
      loadRows cols artCols rs = .ok rest ∧ out = first ++ rest := by
  cases h1 : loadItemRow cols artCols r with
  | error e => simp [loadRows, h1, Bind.bind, Except.bind] at h
  | ok first =>
    cases h2 : loadRows cols artCols rs with
    | error e => simp [loadRows, h1, h2, Bind.bind, Except.bind] at h
    | ok rest =>
      refine ⟨first, rest, rfl, rfl, ?_⟩
      simp [loadRows, h1, h2, Bind.bind, Except.bind] at h
      exact h.symm

theorem loadItemRow_ok {cols artCols : List String} {vals : List Cell}
    {out : List LongRow} (h : loadItemRow cols artCols vals = .ok out) :
    ∃ qid cat, out = articleRecords cols artCols vals qid cat := by
  cases h1 : getCellE cols vals "qid" with
  | error e => simp [loadItemRow, h1, Bind.bind, Except.bind] at h
  | ok q =>
    cases h2 : getCellE cols vals "category" with
    | error e => simp [loadItemRow, h1, h2, Bind.bind, Except.bind] at h
    | ok c =>
      refine ⟨q, c, ?_⟩
      simp [loadItemRow, h1, h2, Bind.bind, Except.bind] at h
      exact h.symm

theorem loadRows_countP (cols artCols : List String) (L : String) :
    ∀ (rs : List (List Cell)) (out : List LongRow),
    loadRows cols artCols rs = .ok out →
    out.countP (fun r => r.language_code == L)
      = (rs.map fun vals => artCols.countP fun col =>
          pyReplace col "article_" "" == L && (cellAt cols vals col).keep).sum ∧
    ∀ r ∈ out, r.article_url ≠ ""
  | [], out, h => by
    simp only [loadRows] at h
    cases h
    exact ⟨rfl, by intro r hr; cases hr⟩
  | r :: rs, out, h => by
    obtain ⟨first, rest, h1, h2, rfl⟩ := loadRows_ok_cons h
    obtain ⟨q, c, rfl⟩ := loadItemRow_ok h1
    obtain ⟨ihc, ihu⟩ := loadRows_countP cols artCols L rs rest h2
    constructor
    · rw [List.countP_append, articleRecords_countP, ihc, List.map_cons,
        List.sum_cons]
    · intro x hx
      rcases List.mem_append.mp hx with hx | hx
      · exact articleRecords_url cols r q c artCols x hx
      · exact ihu x hx

/-- **C1** (amended): for every input table and language code `L`, the number
of long rows the loader emits with code `L` equals the number of present,
non-empty cells summed over all article columns whose name maps to `L` under
the loader's `str.replace` (for article columns that contain `"article_"` only
as their leading prefix, that is exactly language `L`'s column
`article_L`); and no emitted row carries an empty locator. -/
theorem C1_theorem (t : Table) (rows : List LongRow) (L : String)
    (h : load_data t = .ok rows) :
    rows.countP (fun r => r.language_code == L) = codeCellCount t L ∧
    ∀ r ∈ rows, r.article_url ≠ "" :=
  loadRows_countP t.columns (articleColumns t.columns) L t.rows rows h

/-- **C1** counterexample: on `oddColumnTable` — whose article column
`article_article_en` is, under the prefix convention, language `article_en`'s
column — the number of long rows with language code `article_en` (zero) differs
from the number of non-empty cells in that language's column (one): the loader
removes every occurrence of `"article_"` from the column name and files the row
under `en` instead. -/
theorem C1_counterexample :
    ¬ (load_data oddColumnTable).toOption.map
        (fun rows => rows.countP fun r => r.language_code == "article_en")
      = some (specCellCount oddColumnTable "article_en") := by decide

/-- Witness for `C1_theorem` at `sampleTable` and language `en`. -/
theorem C1_witness :
    sampleRows.countP (fun r => r.language_code == "en")
        = codeCellCount sampleTable "en" ∧
    ∀ r ∈ sampleRows, r.article_url ≠ "" :=
  C1_theorem sampleTable sampleRows "en" (by decide)

/-! ## Render pipeline helpers -/

theorem pivotCtxOf_eq {t : Table} {rows : List LongRow} {m : PivotTable}
    (h1 : load_data t = .ok rows) (hre : rows.isEmpty = false)
    (pm : pivot_counts_all rows = .ok m) : pivotCtxOf t = some (rows, m) := by
  unfold pivotCtxOf
  rw [h1]
  simp [hre, pm]

theorem pivotCtxOf_inv {t : Table} {p : List LongRow × PivotTable}
    (h : pivotCtxOf t = some p) :
    load_data t = .ok p.1 ∧ p.1.isEmpty = false ∧ pivot_counts_all p.1 = .ok p.2 := by
  unfold pivotCtxOf at h
  cases hld : load_data t with
  | error e =>
    rw [hld] at h
    cases h
  | ok rows =>
    rw [hld] at h
    cases hre : rows.isEmpty with
    | true =>
      simp only [hre, if_true] at h
      cases h
    | false =>
      simp only [hre, if_false] at h
      cases pm : pivot_counts_all rows with
      | error e =>
        rw [pm] at h
        cases h
      | ok m =>
        rw [pm] at h
        cases h
        exact ⟨rfl, hre, pm⟩

theorem renderOutOf_ctx {t : Table} {rows : List LongRow} {m : PivotTable}
    (h1 : load_data t = .ok rows) (hre : rows.isEmpty = false)
    (pm : pivot_counts_all rows = .ok m) {sel : List String}
    (hsel : sel.isEmpty = false) (sOpt : String) (n : Nat) :
    renderOutOf t sel sOpt n = some
      ⟨(lang_order rows (pivot_pct_of m) sOpt).take n,
       selectRows (selectCols m sel) ((lang_order rows (pivot_pct_of m) sOpt).take n),
       selectRows (selectCols (pivot_pct_of m) sel)
         ((lang_order rows (pivot_pct_of m) sOpt).take n)⟩ := by
  unfold renderOutOf render
  simp [h1, Bind.bind, Except.bind, renderCycle, hre, pm, hsel]

theorem renderOutOf_none_of_ctx_none {t : Table} (h : pivotCtxOf t = none)
    (sel : List String) (sOpt : String) (n : Nat) :
    renderOutOf t sel sOpt n = none := by
  unfold pivotCtxOf at h
  unfold renderOutOf render
  cases hld : load_data t with
  | error e => simp [Bind.bind, Except.bind]
  | ok rows =>
    rw [hld] at h
    simp only [Bind.bind, Except.bind]
    cases hre : rows.isEmpty with
    | true => simp [renderCycle, hre]
    | false =>
      simp only [hre, if_false] at h
      cases pm : pivot_counts_all rows with
      | error e => simp [renderCycle, hre, pm, Bind.bind, Except.bind]
      | ok m =>
        rw [pm] at h
        cases h

theorem isEmpty_false_of_ne_nil {α : Type} {l : List α} (h : l ≠ []) :
    l.isEmpty = false := by
  cases l with
  | nil => exact absurd rfl h
  | cons a t => rfl

/-- **C3**: with a `"Highest % C"` sort key selected, the language ranking is
computed from the unfiltered percentage matrix before the category filter, so
removing the sort category `C` from the displayed categories leaves the
resulting language order unchanged (provided neither selection is empty, so
that neither run halts at the guard). -/
theorem C3_theorem (t : Table) (sel : List String) (sOpt : String) (n : Nat)
    (hs : pyStartsWith sOpt "Highest %" = true)
    (h1 : sel ≠ []) (h2 : sel.filter (fun c => c != sortCategoryOf sOpt) ≠ []) :
    renderOrderOf t sel sOpt n
      = renderOrderOf t (sel.filter fun c => c != sortCategoryOf sOpt) sOpt n := by
  have e1 := isEmpty_false_of_ne_nil h1
  have e2 := isEmpty_false_of_ne_nil h2
  unfold renderOrderOf
  cases hctx : pivotCtxOf t with
  | none => rw [renderOutOf_none_of_ctx_none hctx, renderOutOf_none_of_ctx_none hctx]
  | some p =>
    obtain ⟨rows, m⟩ := p
    obtain ⟨hld, hre, pm⟩ := pivotCtxOf_inv hctx
    rw [renderOutOf_ctx hld hre pm e1 sOpt n, renderOutOf_ctx hld hre pm e2 sOpt n]
    rfl

/-- Witness for `C3_theorem`: the `"Highest % Human"` ranking on `sampleTable`
is unchanged when `human` is removed from the displayed categories. -/
theorem C3_witness :
    renderOrderOf sampleTable ["event", "human"] "Highest % Human" 25
      = renderOrderOf sampleTable
          (["event", "human"].filter fun c => c != sortCategoryOf "Highest % Human")
          "Highest % Human" 25 :=
  C3_theorem sampleTable ["event", "human"] "Highest % Human" 25 (by decide)
    (by decide) (by decide)

/-- **C4** counterexample: `allMissingTable` is a non-empty, schema-conforming
table, yet with an empty category selection the script does not halt with a
warning: the table's one article cell is missing, the long table is therefore
empty, and the run crashes at line 102 with a `KeyError` before any guard is
reached. -/
theorem C4_counterexample :
    allMissingTable.rows ≠ [] ∧
    render allMissingTable [] "Article Count (Descending)" 25
      = .error (.keyError "language_code") :=
  ⟨by decide, rfl⟩

/-- **C4** (amended; the language guard is modelled from the spec, the second
revision being absent from src/): for every table whose long table is non-empty
and whose aggregation succeeds, an empty category selection halts the render
cycle with a warning and no chart or table output, and — in the second
revision — so does an empty language selection; the cached session state is
unchanged, and any later interaction behaves exactly as if the aborted cycle
had never run. -/
theorem C4_theorem (t : Table) (rows : List LongRow) (catSel : List String)
    (sOpt : String) (n : Nat)
    (h1 : load_data t = .ok rows) (h2 : rows ≠ [])
    (hp : (pivotCtxOf t).isSome = true) :
    runCycle (initSession t) [] sOpt n
        = (initSession t, .ok (.warning categoryWarning)) ∧
    (catSel ≠ [] →
      runCycle2 (initSession t) catSel [] sOpt
        = (initSession t, .ok (.warning languageWarning))) ∧
    (∀ sel2 sOpt2 n2,
      runCycle ((runCycle (initSession t) [] sOpt n).1) sel2 sOpt2 n2
        = runCycle (initSession t) sel2 sOpt2 n2) ∧
    (∀ cs2 ls2 sOpt2,
      runCycle2 ((runCycle2 (initSession t) catSel [] sOpt).1) cs2 ls2 sOpt2
        = runCycle2 (initSession t) cs2 ls2 sOpt2) := by
  have hre := isEmpty_false_of_ne_nil h2
  cases pm : pivot_counts_all rows with
  | error e =>
    have hn : pivotCtxOf t = none := by
      unfold pivotCtxOf
      rw [h1]
      simp [hre, pm]
    rw [hn] at hp
    cases hp
  | ok m =>
    refine ⟨?_, fun hcs => ?_, fun _ _ _ => rfl, fun _ _ _ => rfl⟩
    · simp [runCycle, initSession, h1, Bind.bind, Except.bind, renderCycle, hre, pm]
    · have hcs' := isEmpty_false_of_ne_nil hcs
      simp [runCycle2, initSession, h1, Bind.bind, Except.bind, renderCycle2, hre,
        pm, hcs']

/-- Witness for `C4_theorem`: both warnings and the unchanged state observed on
`sampleTable`. -/
theorem C4_witness :
    runCycle (initSession sampleTable) [] "Article Count (Descending)" 25
        = (initSession sampleTable, .ok (.warning categoryWarning)) ∧
    runCycle2 (initSession sampleTable) ["human"] [] "Article Count (Descending)"
        = (initSession sampleTable, .ok (.warning languageWarning)) :=
  ⟨(C4_theorem sampleTable sampleRows ["human"] "Article Count (Descending)" 25
      (by decide) (by decide) (by decide)).1,
   (C4_theorem sampleTable sampleRows ["human"] "Article Count (Descending)" 25
      (by decide) (by decide) (by decide)).2.1 (by decide)⟩

/-! ## Sorting lemmas -/

theorem sortValuesAsc_perm (l : List (String × Nat)) :
    List.Perm (sortValuesAsc l) l :=
  List.perm_insertionSort _ l

theorem sortValuesAsc_sorted (l : List (String × Nat)) :
    (sortValuesAsc l).Pairwise fun a b => a.2 ≤ b.2 := by
  haveI : IsTotal (String × Nat) fun a b => a.2 ≤ b.2 :=
    ⟨fun a b => Nat.le_total a.2 b.2⟩
  haveI : IsTrans (String × Nat) fun a b => a.2 ≤ b.2 :=
    ⟨fun _ _ _ h1 h2 => Nat.le_trans h1 h2⟩
  exact List.sorted_insertionSort _ l

theorem sortValuesDesc_perm (l : List (String × Nat)) :
    List.Perm (sortValuesDesc l) l :=
  (List.reverse_perm _).trans (sortValuesAsc_perm l)

theorem sortValuesDesc_sorted (l : List (String × Nat)) :
    (sortValuesDesc l).Pairwise fun a b => b.2 ≤ a.2 := by
  rw [sortValuesDesc, List.pairwise_reverse]
  exact sortValuesAsc_sorted l

theorem sortValuesDescQ_perm (l : List (String × ℚ)) :
    List.Perm (sortValuesDescQ l) l :=
  (List.reverse_perm _).trans (List.perm_insertionSort _ l)

theorem sortedKeys_nodup (l : List String) : (sortedKeys l).Nodup :=
  ((List.perm_insertionSort _ l.dedup).nodup_iff).mpr (List.nodup_dedup l)

theorem mem_sortedKeys {a : String} {l : List String} :
    a ∈ sortedKeys l ↔ a ∈ l := by
  rw [sortedKeys, (List.perm_insertionSort _ l.dedup).mem_iff, List.mem_dedup]

theorem lang_counts_snd {rows : List LongRow} :
    ∀ e ∈ lang_counts rows, e.2 = countOfLang rows e.1 := by
  intro e he
  obtain ⟨k, _, rfl⟩ := List.mem_map.mp he
  rfl

theorem lang_counts_keys (rows : List LongRow) :
    (lang_counts rows).map (·.1) = sortedKeys (rows.map (·.language_code)) := by
  rw [lang_counts, List.map_map]
  exact List.map_id _

theorem mem_lang_counts {rows : List LongRow} {b : String}
    (hb : b ∈ rows.map (·.language_code)) :
    (b, countOfLang rows b) ∈ lang_counts rows :=
  List.mem_map.mpr ⟨b, mem_sortedKeys.mpr hb, rfl⟩

/-- **C8** (amended): before aggregation exactly the top-25 languages by long
row count are retained — when more than 25 distinct languages exist, 25 of
maximal counts are kept, every retained language's count at least every dropped
language's count — but the tie order is whatever the descending value sort
leaves on the alphabetically keyed grouped counts, not the order in which the
languages first appear in the long table. -/
theorem C8_theorem (t : Table) (rows : List LongRow)
    (h : load_data t = .ok rows) :
    (top_25_languages rows).length
        = min 25 (sortedKeys (rows.map (·.language_code))).length ∧
    (top_25_languages rows).Nodup ∧
    (∀ a ∈ top_25_languages rows, a ∈ rows.map (·.language_code)) ∧
    (∀ a ∈ top_25_languages rows, ∀ b ∈ rows.map (·.language_code),
      b ∉ top_25_languages rows → countOfLang rows b ≤ countOfLang rows a) ∧
    df_top25 rows = rows.filter (fun r =>
      (top_25_languages rows).contains r.language_code) := by
  have hperm : List.Perm (sortValuesDesc (lang_counts rows)) (lang_counts rows) :=
    sortValuesDesc_perm _
  have hsorted : (sortValuesDesc (lang_counts rows)).Pairwise
      (fun a b => b.2 ≤ a.2) := sortValuesDesc_sorted _
  have hsnd : ∀ e ∈ sortValuesDesc (lang_counts rows),
      e.2 = countOfLang rows e.1 := fun e he => lang_counts_snd e (hperm.subset he)
  have htop : top_25_languages rows
      = ((sortValuesDesc (lang_counts rows)).take 25).map (·.1) := rfl
  have hkeysnd : ((sortValuesDesc (lang_counts rows)).map (·.1)).Nodup := by
    have hp2 : List.Perm ((sortValuesDesc (lang_counts rows)).map (·.1))
        ((lang_counts rows).map (·.1)) := hperm.map _
    rw [lang_counts_keys] at hp2
    exact hp2.nodup_iff.mpr (sortedKeys_nodup _)
  refine ⟨?_, ?_, ?_, ?_, rfl⟩
  · rw [htop, List.length_map, List.length_take, hperm.length_eq, lang_counts,
      List.length_map]
  · rw [htop, List.map_take]
    exact hkeysnd.sublist (List.take_sublist _ _)
  · intro a ha
    rw [htop] at ha
    obtain ⟨ea, hta, rfl⟩ := List.mem_map.mp ha
    have hmem : ea ∈ lang_counts rows := hperm.subset (List.take_subset _ _ hta)
    have hk : ea.1 ∈ (lang_counts rows).map (·.1) := List.mem_map_of_mem _ hmem
    rw [lang_counts_keys] at hk
    exact mem_sortedKeys.mp hk
  · intro a ha b hb hnb
    rw [htop] at ha hnb
    obtain ⟨ea, hta, rfl⟩ := List.mem_map.mp ha
    have heb : (b, countOfLang rows b) ∈ sortValuesDesc (lang_counts rows) :=
      hperm.mem_iff.mpr (mem_lang_counts hb)
    have heb2 : (b, countOfLang rows b) ∈
        (sortValuesDesc (lang_counts rows)).take 25
          ++ (sortValuesDesc (lang_counts rows)).drop 25 := by
      rw [List.take_append_drop]
      exact heb
    have hsorted2 : ((sortValuesDesc (lang_counts rows)).take 25
        ++ (sortValuesDesc (lang_counts rows)).drop 25).Pairwise
        (fun a b => b.2 ≤ a.2) := by
      rw [List.take_append_drop]
      exact hsorted
    have hdrop : (b, countOfLang rows b)
        ∈ (sortValuesDesc (lang_counts rows)).drop 25 := by
      rcases List.mem_append.mp heb2 with h1 | h1
      · exact absurd (List.mem_map_of_mem (·.1) h1) hnb
      · exact h1
    have hle := (List.pairwise_append.mp hsorted2).2.2 ea hta
      (b, countOfLang rows b) hdrop
    have hea := hsnd ea (List.take_subset _ _ hta)
    rw [hea] at hle
    exact hle

/-- **C8** counterexample: no tie-breaking behaviour of the descending value
sort can realize first-appearance tie-breaking — `tieTableA` and `tieTableB`
yield identical grouped counts (`groupby` keys them alphabetically), hence
identical retained orders, yet their long tables have opposite first-appearance
orders for the tied languages `aa` and `zz`. -/
theorem C8_counterexample :
    ¬ ∃ f : List (String × Nat) → List (String × Nat),
      ((load_data tieTableA).toOption.map (top25With f)
          = (load_data tieTableA).toOption.map claimedTop25 ∧
       (load_data tieTableB).toOption.map (top25With f)
          = (load_data tieTableB).toOption.map claimedTop25) := by
  rintro ⟨f, h1, h2⟩
  have lA : load_data tieTableA = .ok rowsTieA := by decide
  have lB : load_data tieTableB = .ok rowsTieB := by decide
  rw [lA] at h1
  rw [lB] at h2
  simp only [Except.toOption, Option.map, Option.some.injEq] at h1 h2
  have hcA : claimedTop25 rowsTieA = ["aa", "zz"] := by decide
  have hcB : claimedTop25 rowsTieB = ["zz", "aa"] := by decide
  have hlc : lang_counts rowsTieA = lang_counts rowsTieB := by decide
  rw [hcA] at h1
  rw [hcB] at h2
  unfold top25With at h1 h2
  rw [hlc] at h1
  exact absurd (h1.symm.trans h2) (by decide)

/-- Witness for `C8_theorem`: the retained-language count on `sampleTable`. -/
theorem C8_witness :
    (top_25_languages sampleRows).length
        = min 25 (sortedKeys (sampleRows.map (·.language_code))).length :=
  (C8_theorem sampleTable sampleRows (by decide)).1

/-- **C10**: when a `"Highest % C"` sort is selected for a category `C` that is
not a column of the percentage matrix, the run does not fail: the language
order falls back to `top_25_languages`, which is ordered by article count
descending. -/
theorem C10_theorem (t : Table) (sOpt : String)
    (hs : pyStartsWith sOpt "Highest %" = true)
    (hc : sortCategoryOf sOpt ∉ pctColsOf t) :
    langOrderOf t sOpt = top25Of t ∧
    (∀ L, top25Of t = some L →
      L.Pairwise fun a b => countOfLangOf t b ≤ countOfLangOf t a) := by
  cases hctx : pivotCtxOf t with
  | none =>
    constructor
    · unfold langOrderOf top25Of
      rw [hctx]
      rfl
    · intro L hL
      unfold top25Of at hL
      rw [hctx] at hL
      cases hL
  | some p =>
    obtain ⟨rows, m⟩ := p
    obtain ⟨hld, hre, pm⟩ := pivotCtxOf_inv hctx
    have hcols : pctColsOf t = m.cols := by
      unfold pctColsOf
      rw [hctx]
    rw [hcols] at hc
    have hd : ¬ sOpt = "Article Count (Descending)" := by
      intro he
      rw [he] at hs
      exact absurd hs (by decide)
    have ha : ¬ sOpt = "Article Count (Ascending)" := by
      intro he
      rw [he] at hs
      exact absurd hs (by decide)
    have hcc : (pivot_pct_of m).cols.contains (sortCategoryOf sOpt) = false := by
      have hmc : sortCategoryOf sOpt ∉ (pivot_pct_of m).cols := hc
      simp [List.elem_eq_mem, hmc]
    constructor
    · unfold langOrderOf top25Of
      rw [hctx]
      simp only [Option.map]
      simp only [lang_order, if_neg hd, if_neg ha, hs, hcc]
      simp
    · intro L hL
      unfold top25Of at hL
      rw [hctx] at hL
      simp only [Option.map, Option.some.injEq] at hL
      have hco : ∀ l, countOfLangOf t l = countOfLang rows l := by
        intro l
        unfold countOfLangOf
        rw [hld]
        rfl
      rw [← hL]
      have hsorted : (sortValuesDesc (lang_counts rows)).Pairwise
          (fun a b => b.2 ≤ a.2) := sortValuesDesc_sorted _
      have hperm : List.Perm (sortValuesDesc (lang_counts rows))
          (lang_counts rows) := sortValuesDesc_perm _
      have htake : ((sortValuesDesc (lang_counts rows)).take 25).Pairwise
          (fun a b => b.2 ≤ a.2) := hsorted.sublist (List.take_sublist _ _)
      rw [top_25_languages, top25With, List.pairwise_map]
      refine List.Pairwise.imp_of_mem ?_ htake
      intro ea eb hma hmb hle
      have h1 := lang_counts_snd ea (hperm.subset (List.take_subset _ _ hma))
      have h2 := lang_counts_snd eb (hperm.subset (List.take_subset _ _ hmb))
      rw [hco ea.1, hco eb.1, ← h1, ← h2]
      exact hle

/-- Witness for `C10_theorem`: on `sampleTable`, which has no `other` column,
sorting by `"Highest % Other"` falls back to the top-25 order. -/
theorem C10_witness :
    langOrderOf sampleTable "Highest % Other" = top25Of sampleTable :=
  (C10_theorem sampleTable "Highest % Other" (by decide) (by decide)).1

/-! ## Pivot and selection lemmas -/

theorem pivot_counts_all_inv {rows : List LongRow} {m : PivotTable}
    (pm : pivot_counts_all rows = .ok m) :
    m = ⟨top_25_languages rows,
         sortedKeys (((df_top25 rows).filter fun r =>
           r.category != Cell.na).filterMap fun r =>
             match r.category with | .na => none | .val s => some s),
         fun l c => ((df_top25 rows).countP fun r =>
           r.language_code == l && r.category == Cell.val c : ℚ)⟩ ∧
    ∀ l ∈ top_25_languages rows,
      l ∈ sortedKeys (((df_top25 rows).filter fun r =>
        r.category != Cell.na).map (·.language_code)) := by
  simp only [pivot_counts_all] at pm
  split at pm
  case isTrue hcond =>
    cases pm
    refine ⟨rfl, fun l hl => ?_⟩
    have := List.all_eq_true.mp hcond l hl
    exact List.elem_iff.mp this
  case isFalse hcond => simp at pm

theorem renderOutOf_sel_empty {t : Table} {rows : List LongRow} {m : PivotTable}
    (h1 : load_data t = .ok rows) (hre : rows.isEmpty = false)
    (pm : pivot_counts_all rows = .ok m) {sel : List String}
    (hsel : sel.isEmpty = true) (sOpt : String) (n : Nat) :
    renderOutOf t sel sOpt n = none := by
  unfold renderOutOf render
  simp [h1, Bind.bind, Except.bind, renderCycle, hre, pm, hsel]

theorem lang_order_perm {rows : List LongRow} {m : PivotTable} (sOpt : String)
    (hidx : m.index = top_25_languages rows) :
    List.Perm (lang_order rows m sOpt) (top_25_languages rows) := by
  have hmapfst : ∀ (ks : List String) (f : String → ℚ),
      (ks.map fun l => (l, f l)).map (·.1) = ks := by
    intro ks f
    rw [List.map_map]
    exact List.map_id _
  have hmapfstN : ∀ (ks : List String) (f : String → Nat),
      (ks.map fun l => (l, f l)).map (·.1) = ks := by
    intro ks f
    rw [List.map_map]
    exact List.map_id _
  simp only [lang_order]
  split_ifs with h1 h2 h3 h4
  · have hp := (sortValuesDesc_perm ((top_25_languages rows).map fun l =>
      (l, countOfLang rows l))).map (·.1)
    rwa [hmapfstN] at hp
  · have hp := (sortValuesAsc_perm ((top_25_languages rows).map fun l =>
      (l, countOfLang rows l))).map (·.1)
    rwa [hmapfstN] at hp
  · rw [hidx]
    have hp := (sortValuesDescQ_perm ((top_25_languages rows).map fun l =>
      (l, m.entry l (sortCategoryOf sOpt)))).map (·.1)
    rwa [hmapfst] at hp
  · exact List.Perm.refl _
  · exact List.Perm.refl _

theorem top_25_languages_length_le (rows : List LongRow) :
    (top_25_languages rows).length ≤ 25 := by
  rw [top_25_languages, top25With, List.length_map, List.length_take]
  exact Nat.min_le_left _ _

/-- **C6**: the presenter does not re-normalize after the category filter —
every displayed percentage cell equals the corresponding cell of the full
(row-normalized before filtering) percentage matrix. -/
theorem C6_theorem (t : Table) (sel : List String) (sOpt : String) (n : Nat)
    (l c : String) (L : List String)
    (hsel : sel ≠ []) (hL : renderOrderOf t sel sOpt n = some L)
    (hl : l ∈ L) (hc : c ∈ sel) :
    displayPctEntryOf t sel sOpt n l c = allPctEntryOf t l c := by
  have e1 := isEmpty_false_of_ne_nil hsel
  cases hctx : pivotCtxOf t with
  | none =>
    unfold displayPctEntryOf allPctEntryOf
    rw [renderOutOf_none_of_ctx_none hctx, hctx]
    rfl
  | some p =>
    obtain ⟨rows, m⟩ := p
    obtain ⟨hld, hre, pm⟩ := pivotCtxOf_inv hctx
    unfold displayPctEntryOf allPctEntryOf
    rw [renderOutOf_ctx hld hre pm e1 sOpt n, hctx]
    rfl

/-- Witness for `C6_theorem`: one displayed percentage cell of `sampleTable`
equals the corresponding unfiltered cell. -/
theorem C6_witness :
    displayPctEntryOf sampleTable ["human"] "Article Count (Descending)" 25
        "en" "human"
      = allPctEntryOf sampleTable "en" "human" :=
  C6_theorem sampleTable ["human"] "Article Count (Descending)" 25 "en" "human"
    ["en", "fr"] (by decide) (by decide) (by decide) (by decide)

/-- **C7**: for a table whose categories all belong to the fixed enumeration,
selecting all available categories with the language cap at its maximum (25)
reproduces the unfiltered matrices: the same languages, the same categories,
and the same count and percentage values at every label pair. -/
theorem C7_theorem (t : Table) (sOpt : String) (L A : List String)
    (hcat : ∀ x ∈ pctColsOf t, x ∈ category_order)
    (hL : renderOrderOf t (availableCategoriesOf t) sOpt 25 = some L)
    (hA : allLangsOf t = some A) :
    (∀ x, x ∈ L ↔ x ∈ A) ∧
    (displayCatsOf t (availableCategoriesOf t) sOpt 25
        = some (availableCategoriesOf t) ∧
      ∀ x, x ∈ availableCategoriesOf t ↔ x ∈ pctColsOf t) ∧
    (∀ l c, displayCountEntryOf t (availableCategoriesOf t) sOpt 25 l c
        = allCountEntryOf t l c ∧
      displayPctEntryOf t (availableCategoriesOf t) sOpt 25 l c
        = allPctEntryOf t l c) := by
  cases hctx : pivotCtxOf t with
  | none =>
    unfold allLangsOf at hA
    rw [hctx] at hA
    cases hA
  | some p =>
    obtain ⟨rows, m⟩ := p
    have hinv := pivotCtxOf_inv hctx
    have hld : load_data t = .ok rows := hinv.1
    have hre : rows.isEmpty = false := hinv.2.1
    have pm : pivot_counts_all rows = .ok m := hinv.2.2
    have hm := (pivot_counts_all_inv pm).1
    have hidx : m.index = top_25_languages rows := by rw [hm]
    have hAm : A = m.index := by
      unfold allLangsOf at hA
      rw [hctx] at hA
      simp only [Option.map, Option.some.injEq] at hA
      exact hA.symm
    cases hsel : (availableCategoriesOf t).isEmpty with
    | true =>
      unfold renderOrderOf at hL
      rw [renderOutOf_sel_empty hld hre pm hsel sOpt 25] at hL
      cases hL
    | false =>
      have hout := renderOutOf_ctx hld hre pm hsel sOpt 25
      have hLval : L = (lang_order rows (pivot_pct_of m) sOpt).take 25 := by
        unfold renderOrderOf at hL
        rw [hout] at hL
        simp only [Option.map, Option.some.injEq] at hL
        exact hL.symm
      have hpidx : (pivot_pct_of m).index = top_25_languages rows := hidx
      have hperm := lang_order_perm (m := pivot_pct_of m) sOpt hpidx
      have htk : (lang_order rows (pivot_pct_of m) sOpt).take 25
          = lang_order rows (pivot_pct_of m) sOpt :=
        List.take_of_length_le
          (by rw [hperm.length_eq]; exact top_25_languages_length_le rows)
      refine ⟨?_, ⟨?_, ?_⟩, ?_⟩
      · intro x
        rw [hLval, htk, hAm, hidx]
        exact ⟨fun hx => hperm.subset hx, fun hx => hperm.symm.subset hx⟩
      · unfold displayCatsOf
        rw [hout]
        rfl
      · intro x
        have hcols : pctColsOf t = m.cols := by
          unfold pctColsOf
          rw [hctx]
        have hav : availableCategoriesOf t
            = category_order.filter fun c => m.cols.contains c := by
          unfold availableCategoriesOf
          rw [hctx]
          rfl
        rw [hav, hcols]
        constructor
        · intro hx
          exact List.elem_iff.mp (List.mem_filter.mp hx).2
        · intro hx
          exact List.mem_filter.mpr
            ⟨hcat x (by rw [hcols]; exact hx), List.elem_iff.mpr hx⟩
      · intro l c
        constructor
        · unfold displayCountEntryOf allCountEntryOf
          rw [hout, hctx]
          rfl
        · unfold displayPctEntryOf allPctEntryOf
          rw [hout, hctx]
          rfl

/-- Witness for `C7_theorem`: the displayed categories of `sampleTable` with
everything selected are exactly the available categories. -/
theorem C7_witness :
    displayCatsOf sampleTable (availableCategoriesOf sampleTable)
        "Article Count (Descending)" 25
      = some (availableCategoriesOf sampleTable) :=
  ((C7_theorem sampleTable "Article Count (Descending)" ["en", "fr"] ["en", "fr"]
    (by decide) (by decide) (by decide)).2.1).1

/-! ## Row-sum lemmas for the percentage matrix -/

theorem sum_map_add_nat (f g : String → Nat) (cs : List String) :
    (cs.map fun c => f c + g c).sum = (cs.map f).sum + (cs.map g).sum := by
  induction cs with
  | nil => rfl
  | cons c cs ih =>
    simp only [List.map_cons, List.sum_cons, ih]
    omega

theorem sum_indicator_zero {s : String} {cs : List String} (h : s ∉ cs) :
    (cs.map fun c => if s = c then 1 else 0).sum = 0 := by
  induction cs with
  | nil => rfl
  | cons c cs ih =>
    simp only [List.mem_cons, not_or] at h
    simp [List.sum_cons, if_neg h.1, ih h.2]

theorem sum_indicator_one {s : String} {cs : List String} (hnd : cs.Nodup)
    (hs : s ∈ cs) :
    (cs.map fun c => if s = c then 1 else 0).sum = 1 := by
  induction cs with
  | nil => cases hs
  | cons c cs ih =>
    rcases List.mem_cons.mp hs with rfl | hmem
    · have hnotin : s ∉ cs := (List.nodup_cons.mp hnd).1
      simp [sum_indicator_zero hnotin]
    · have hne : s ≠ c := by
        intro he
        rw [he] at hmem
        exact (List.nodup_cons.mp hnd).1 hmem
      simp [if_neg hne, ih (List.nodup_cons.mp hnd).2 hmem]

theorem sum_countP_partition (d : List LongRow) (l : String) (cs : List String)
    (hnd : cs.Nodup)
    (hcov : ∀ r ∈ d, r.language_code = l → ∀ s, r.category = .val s → s ∈ cs) :
    (cs.map fun c => d.countP fun r =>
        r.language_code == l && r.category == Cell.val c).sum
      = d.countP fun r => r.language_code == l && r.category != Cell.na := by
  induction d with
  | nil => simp
  | cons r d ih =>
    have hcov2 : ∀ x ∈ d, x.language_code = l → ∀ s, x.category = .val s → s ∈ cs :=
      fun x hx => hcov x (List.mem_cons_of_mem r hx)
    simp only [List.countP_cons]
    rw [sum_map_add_nat (fun c => d.countP fun x =>
        x.language_code == l && x.category == Cell.val c)
      (fun c => if (r.language_code == l && r.category == Cell.val c) = true
        then 1 else 0) cs]
    rw [ih hcov2]
    by_cases hl : r.language_code = l
    · cases hcat : r.category with
      | na => simp [hl, hcat]
      | val cv =>
        have hsmem : cv ∈ cs := hcov r (List.mem_cons_self r d) hl cv hcat
        have hpt : ∀ c : String,
            (if (r.language_code == l && Cell.val cv == Cell.val c) = true
              then 1 else 0) = if cv = c then 1 else 0 := by
          intro c
          simp [hl]
        simp only [hpt]
        rw [sum_indicator_one hnd hsmem]
        simp [hl]
    · have hbl : (r.language_code == l) = false := by
        simp [hl]
      simp [hbl]

theorem sum_map_natCast (cs : List String) (f : String → Nat) :
    (cs.map fun c => (f c : ℚ)).sum = ((cs.map f).sum : ℚ) := by
  induction cs with
  | nil => simp
  | cons c cs ih => simp [ih]

/-- **C2**: every language present in the percentage matrix has a percentage
row that sums to exactly 100 (hence within the 1e-6 tolerance), and its count
row does not sum to 0 — so a language whose count row would sum to 0 is never
present and a percentage of zero is never formed. -/
theorem C2_theorem (t : Table) (l : String) (hl : l ∈ pctLangs t) :
    pctRowSumOf t l = some 100 ∧ countRowSumOf t l ≠ some 0 := by
  cases hctx : pivotCtxOf t with
  | none =>
    unfold pctLangs at hl
    rw [hctx] at hl
    cases hl
  | some p =>
    obtain ⟨rows, m⟩ := p
    have hinv := pivotCtxOf_inv hctx
    have pm : pivot_counts_all rows = .ok m := hinv.2.2
    have hm := (pivot_counts_all_inv pm).1
    have hguard := (pivot_counts_all_inv pm).2
    have hl25 : l ∈ top_25_languages rows := by
      unfold pctLangs at hl
      rw [hctx] at hl
      rw [hm] at hl
      exact hl
    have hcolsm : m.cols = sortedKeys (((df_top25 rows).filter fun r =>
        r.category != Cell.na).filterMap fun r =>
          match r.category with | .na => none | .val s => some s) := by
      rw [hm]
    have hentry : m.entry = fun l c => ((df_top25 rows).countP fun r =>
        r.language_code == l && r.category == Cell.val c : ℚ) := by
      rw [hm]
    have hnd : (sortedKeys (((df_top25 rows).filter fun r =>
        r.category != Cell.na).filterMap fun r =>
          match r.category with | .na => none | .val s => some s)).Nodup :=
      sortedKeys_nodup _
    have hcov : ∀ r ∈ df_top25 rows, r.language_code = l →
        ∀ cv, r.category = .val cv →
        cv ∈ sortedKeys (((df_top25 rows).filter fun r =>
          r.category != Cell.na).filterMap fun r =>
            match r.category with | .na => none | .val s => some s) := by
      intro r hr hlang cv hcv
      rw [mem_sortedKeys]
      refine List.mem_filterMap.mpr ⟨r, ?_, ?_⟩
      · refine List.mem_filter.mpr ⟨hr, ?_⟩
        rw [hcv]
        rfl
      · rw [hcv]
    have hkey := sum_countP_partition (df_top25 rows) l _ hnd hcov
    have hmem0 := hguard l hl25
    rw [mem_sortedKeys] at hmem0
    obtain ⟨r0, hr0dv, hr0l⟩ := List.mem_map.mp hmem0
    have hpos : 0 < (df_top25 rows).countP fun r =>
        r.language_code == l && r.category != Cell.na := by
      rw [List.countP_pos]
      refine ⟨r0, (List.mem_filter.mp hr0dv).1, ?_⟩
      have h2 := (List.mem_filter.mp hr0dv).2
      simp [hr0l, h2]
    have hcount : rowSumOf m l = ((df_top25 rows).countP (fun r =>
        r.language_code == l && r.category != Cell.na) : ℚ) := by
      unfold rowSumOf
      rw [hcolsm]
      simp only [hentry]
      rw [sum_map_natCast, hkey]
    have hSne : rowSumOf m l ≠ 0 := by
      rw [hcount]
      exact_mod_cast Nat.pos_iff_ne_zero.mp hpos
    have hpct : rowSumOf (pivot_pct_of m) l = 100 := by
      have hunf : rowSumOf (pivot_pct_of m) l
          = (m.cols.map fun c => m.entry l c / rowSumOf m l * 100).sum := rfl
      have hpt : ∀ c : String, m.entry l c / rowSumOf m l * 100
          = m.entry l c * (100 / rowSumOf m l) := by
        intro c
        ring
      rw [hunf]
      simp only [hpt]
      rw [List.sum_map_mul_right]
      have hms : (m.cols.map fun c => m.entry l c).sum = rowSumOf m l := rfl
      rw [hms, mul_comm, div_mul_cancel₀ _ hSne]
    constructor
    · unfold pctRowSumOf
      rw [hctx]
      simp only [Option.map, Option.some.injEq]
      exact hpct
    · unfold countRowSumOf
      rw [hctx]
      simp only [Option.map]
      intro he
      injection he with he2
      exact hSne he2

/-- Witness for `C2_theorem`: language `en` of `sampleTable`. -/
theorem C2_witness :
    pctRowSumOf sampleTable "en" = some 100 ∧
    countRowSumOf sampleTable "en" ≠ some 0 :=
  C2_theorem sampleTable "en" (by decide)

/-! ## The two-key sample ordering is total and transitive -/

theorem charListLe_total : ∀ a b : List Char,
    charListLe a b = true ∨ charListLe b a = true
  | [], _ => .inl rfl
  | _ :: _, [] => .inr rfl
  | a :: as, b :: bs => by
    by_cases h1 : a.toNat < b.toNat
    · left
      simp [charListLe, h1]
    · by_cases h2 : b.toNat < a.toNat
      · right
        simp [charListLe, h2]
      · rcases charListLe_total as bs with h | h
        · left
          simp [charListLe, h1, h2, h]
        · right
          simp [charListLe, h1, h2, h]

theorem charListLe_trans : ∀ a b c : List Char, charListLe a b = true →
    charListLe b c = true → charListLe a c = true
  | [], _, _, _, _ => rfl
  | _ :: _, [], _, h1, _ => by simp [charListLe] at h1
  | _ :: _, _ :: _, [], _, h2 => by simp [charListLe] at h2
  | a :: as, b :: bs, c :: cs, h1, h2 => by
    simp only [charListLe] at h1 h2 ⊢
    split_ifs at h1 with hab hba
    · split_ifs at h2 with hbc hcb
      · rw [if_pos (Nat.lt_trans hab hbc)]
      · have hac : a.toNat < c.toNat := by omega
        rw [if_pos hac]
    · split_ifs at h2 with hbc hcb
      · have hac : a.toNat < c.toNat := by omega
        rw [if_pos hac]
      · have h3 := charListLe_trans as bs cs h1 h2
        have hnac : ¬ a.toNat < c.toNat := by omega
        have hnca : ¬ c.toNat < a.toNat := by omega
        rw [if_neg hnac, if_neg hnca]
        exact h3

theorem charListLe_antisymm : ∀ a b : List Char, charListLe a b = true →
    charListLe b a = true → a = b
  | [], [], _, _ => rfl
  | [], _ :: _, _, h2 => by simp [charListLe] at h2
  | _ :: _, [], h1, _ => by simp [charListLe] at h1
  | a :: as, b :: bs, h1, h2 => by
    simp only [charListLe] at h1 h2
    by_cases hab : a.toNat < b.toNat
    · exfalso
      rw [if_neg (by omega : ¬ b.toNat < a.toNat), if_pos hab] at h2
      cases h2
    · by_cases hba : b.toNat < a.toNat
      · exfalso
        rw [if_neg hab, if_pos hba] at h1
        cases h1
      · have heq : a = b := by
          have hn : a.toNat = b.toNat := by omega
          have e1 : Char.ofNat a.toNat = a := Char.ofNat_toNat a
          rw [hn] at e1
          rw [← e1, Char.ofNat_toNat]
        rw [if_neg hab, if_neg hba] at h1 h2
        rw [heq, charListLe_antisymm as bs h1 h2]

theorem strLe_total (a b : String) : strLe a b = true ∨ strLe b a = true :=
  charListLe_total _ _

theorem strLe_trans {a b c : String} (h1 : strLe a b = true)
    (h2 : strLe b c = true) : strLe a c = true :=
  charListLe_trans _ _ _ h1 h2

theorem strLe_antisymm {a b : String} (h1 : strLe a b = true)
    (h2 : strLe b a = true) : a = b := by
  have h3 := charListLe_antisymm _ _ h1 h2
  cases a with
  | mk d1 =>
    cases b with
    | mk d2 =>
      exact congrArg String.mk h3

theorem cellLe_total (x y : Cell) : cellLe x y = true ∨ cellLe y x = true := by
  cases x with
  | na =>
    cases y with
    | na => exact .inl rfl
    | val t => exact .inr rfl
  | val s =>
    cases y with
    | na => exact .inl rfl
    | val t => exact strLe_total s t

theorem cellLe_trans {x y z : Cell} (h1 : cellLe x y = true)
    (h2 : cellLe y z = true) : cellLe x z = true := by
  cases x with
  | na =>
    cases y with
    | na => exact h2
    | val t => cases h1
  | val s =>
    cases z with
    | na => rfl
    | val u =>
      cases y with
      | na => cases h2
      | val t => exact strLe_trans h1 h2

theorem rowSortLe_total (r1 r2 : LongRow) :
    rowSortLe r1 r2 = true ∨ rowSortLe r2 r1 = true := by
  unfold rowSortLe
  by_cases h : r1.language_code = r2.language_code
  · rw [if_pos h, if_pos h.symm]
    exact cellLe_total _ _
  · rw [if_neg h, if_neg fun he => h he.symm]
    exact strLe_total _ _

theorem rowSortLe_trans (r1 r2 r3 : LongRow) (h1 : rowSortLe r1 r2 = true)
    (h2 : rowSortLe r2 r3 = true) : rowSortLe r1 r3 = true := by
  unfold rowSortLe at h1 h2 ⊢
  by_cases h12 : r1.language_code = r2.language_code
  · by_cases h23 : r2.language_code = r3.language_code
    · rw [if_pos h12] at h1
      rw [if_pos h23] at h2
      rw [if_pos (h12.trans h23)]
      exact cellLe_trans h1 h2
    · rw [if_neg h23] at h2
      rw [if_neg (by rw [h12]; exact h23), h12]
      exact h2
  · by_cases h23 : r2.language_code = r3.language_code
    · rw [if_neg h12] at h1
      rw [if_neg (by rw [← h23]; exact h12), ← h23]
      exact h1
    · rw [if_neg h12] at h1
      rw [if_neg h23] at h2
      by_cases h13 : r1.language_code = r3.language_code
      · exfalso
        rw [h13] at h1
        exact h23 (strLe_antisymm h2 h1)
      · rw [if_neg h13]
        exact strLe_trans h1 h2

instance : IsTotal LongRow RowRel := ⟨rowSortLe_total⟩

instance : IsTrans LongRow RowRel := ⟨rowSortLe_trans⟩

/-- **C9** (amended): the raw-data sample has size exactly
`min(100, number of rows whose category is selected and whose language is
top-25)`, contains only rows with a selected category and a top-25 language —
it is not restricted to the currently displayed languages — and is sorted by
language code then category. -/
theorem C9_theorem (t : Table) (rows : List LongRow) (sel : List String)
    (σ : List LongRow → List LongRow)
    (hld : load_data t = .ok rows)
    (hσ : List.Perm (σ (displayFilter rows sel)) (displayFilter rows sel)) :
    (sample_df rows sel σ).length = min 100 (displayFilter rows sel).length ∧
    (∀ r ∈ sample_df rows sel σ,
      (∃ cv, r.category = .val cv ∧ cv ∈ sel) ∧
      r.language_code ∈ top_25_languages rows) ∧
    (sample_df rows sel σ).Pairwise RowRel := by
  have hperm1 : List.Perm (sample_df rows sel σ)
      ((σ (displayFilter rows sel)).take
        (min 100 (displayFilter rows sel).length)) :=
    List.perm_insertionSort _ _
  refine ⟨?_, ?_, ?_⟩
  · rw [hperm1.length_eq, List.length_take, hσ.length_eq]
    omega
  · intro r hr
    have hr3 : r ∈ σ (displayFilter rows sel) :=
      List.take_subset _ _ (hperm1.subset hr)
    have hr4 : r ∈ displayFilter rows sel := hσ.subset hr3
    have hr5 := List.mem_filter.mp hr4
    constructor
    · cases hcat : r.category with
      | na =>
        have hp := hr5.2
        simp [hcat] at hp
      | val cv =>
        have hp := hr5.2
        simp only [hcat] at hp
        refine ⟨cv, rfl, ?_⟩
        simpa using hp
    · have hr6 := List.mem_filter.mp hr5.1
      simpa using hr6.2
  · exact List.sorted_insertionSort RowRel _

/-- **C9** counterexample: on `sixLangTable` with the cap at five languages,
whatever rows the random draw picks, the sample is the whole six-row filtered
set and so contains language `ff`, which is not among the five displayed
languages — the sample is restricted to the top-25 languages, not to the
displayed ones. -/
theorem C9_counterexample :
    load_data sixLangTable = .ok rowsSix ∧
    ¬ ∃ σ : List LongRow → List LongRow,
      List.Perm (σ (displayFilter rowsSix ["human"]))
          (displayFilter rowsSix ["human"]) ∧
      ∀ L, renderOrderOf sixLangTable ["human"] "Article Count (Descending)" 5
          = some L →
        ∀ r ∈ sample_df rowsSix ["human"] σ, r.language_code ∈ L := by
  refine ⟨by decide, ?_⟩
  rintro ⟨σ, hσ, hall⟩
  have hL : renderOrderOf sixLangTable ["human"] "Article Count (Descending)" 5
      = some ["aa", "bb", "cc", "dd", "ee"] := by decide
  have hperm1 : List.Perm (sample_df rowsSix ["human"] σ)
      ((σ (displayFilter rowsSix ["human"])).take
        (min 100 (displayFilter rowsSix ["human"]).length)) :=
    List.perm_insertionSort _ _
  have htk : (σ (displayFilter rowsSix ["human"])).take
      (min 100 (displayFilter rowsSix ["human"]).length)
      = σ (displayFilter rowsSix ["human"]) :=
    List.take_of_length_le (by
      rw [hσ.length_eq]
      decide)
  rw [htk] at hperm1
  have hr0 : (⟨.val "Q1", "ff", "u6", .val "human"⟩ : LongRow)
      ∈ sample_df rowsSix ["human"] σ :=
    (hperm1.trans hσ).mem_iff.mpr (by decide)
  have hmem := hall ["aa", "bb", "cc", "dd", "ee"] hL _ hr0
  exact absurd hmem (by decide)

/-- Witness for `C9_theorem`: the identity draw on `sampleTable` with both
categories selected. -/
theorem C9_witness :
    (sample_df sampleRows ["event", "human"] id).length
        = min 100 (displayFilter sampleRows ["event", "human"]).length ∧
    (∀ r ∈ sample_df sampleRows ["event", "human"] id,
      (∃ cv, r.category = .val cv ∧ cv ∈ ["event", "human"]) ∧
      r.language_code ∈ top_25_languages sampleRows) ∧
    (sample_df sampleRows ["event", "human"] id).Pairwise RowRel :=
  C9_theorem sampleTable sampleRows ["event", "human"] id (by decide)
    (List.Perm.refl _)

end CategoryAnalysis
